import Mathlib

/-!
# Verification of the bouncetyper physics/assist core

A shallow embedding, in Lean 4, of the claim-relevant parts of the
`bouncetyper` repository (a Bevy paddle/ball arena game), together with
theorems settling the frozen claims about its specification.

Embedding conventions:
* `f32` values are modelled as real numbers (`ℝ`); `exp` is `Real.exp`.
  Where a claim is specifically about IEEE-754 non-finite behaviour
  (NaN propagation through `normalize` of a zero vector), a dedicated
  small IEEE-style carrier `F` with `fin / inf / ninf / nan` values is
  used instead.
* glam's `Vec2` becomes a structure of two reals; `Vec3` likewise.
* Bevy systems become pure functions from their (relevant) inputs to the
  state they write; deferred `Commands` (component removals) are modelled
  by accumulating the removal set and applying it at the end of the run,
  matching Bevy's end-of-stage command application.
* Bevy's once-mode `Timer` is modelled by its `duration`/`elapsed` pair;
  `tick` saturates `elapsed` at `duration` and `finished` means
  `duration ≤ elapsed`.
-/

open Classical

noncomputable section

namespace Bouncetyper

/-! ## Vectors (glam `Vec2` / `Vec3`, over ℝ) -/

structure Vec2 where
  x : ℝ
  y : ℝ
deriving DecidableEq

namespace Vec2

def zero : Vec2 := ⟨0, 0⟩

def add (a b : Vec2) : Vec2 := ⟨a.x + b.x, a.y + b.y⟩

def sub (a b : Vec2) : Vec2 := ⟨a.x - b.x, a.y - b.y⟩

def smul (c : ℝ) (v : Vec2) : Vec2 := ⟨c * v.x, c * v.y⟩

/-- Division of a vector by a scalar (`Vec2 / f32`). -/
def divScalar (v : Vec2) (c : ℝ) : Vec2 := ⟨v.x / c, v.y / c⟩

/-- glam `Vec2::length_squared`. -/
def lengthSquared (v : Vec2) : ℝ := v.x * v.x + v.y * v.y

/-- glam `Vec2::length`. -/
def length (v : Vec2) : ℝ := Real.sqrt (lengthSquared v)

/-- glam `Vec2::clamp_length_max`: if `length_squared > max·max`, rescale to
length `max`, else return the vector unchanged. -/
def clampLengthMax (v : Vec2) (max : ℝ) : Vec2 :=
  if max * max < lengthSquared v then smul max (smul (Real.sqrt (lengthSquared v))⁻¹ v)
  else v

theorem lengthSquared_nonneg (v : Vec2) : 0 ≤ lengthSquared v :=
  add_nonneg (mul_self_nonneg _) (mul_self_nonneg _)

theorem length_nonneg (v : Vec2) : 0 ≤ length v := Real.sqrt_nonneg _

theorem length_smul (c : ℝ) (v : Vec2) : length (smul c v) = |c| * length v := by
  unfold length lengthSquared smul
  have h : c * v.x * (c * v.x) + c * v.y * (c * v.y) = c ^ 2 * (v.x * v.x + v.y * v.y) := by
    ring
  rw [h, Real.sqrt_mul (sq_nonneg c), Real.sqrt_sq_eq_abs]

end Vec2

structure Vec3 where
  x : ℝ
  y : ℝ
  z : ℝ
deriving DecidableEq

/-! ## `src/utility.rs` -/

/-- `impl Interpolation for f32`: `fn lerp(self, begin, end) = begin * (1.0 - self) + end * self`. -/
def lerp (t b e : ℝ) : ℝ := b * (1 - t) + e * t

/-- `impl Damp for f32`:
`fn damp(self, target, speed, delta_seconds) = (1.0 - (-speed * delta_seconds).exp()).lerp(self, target)`. -/
def damp (v target speed delta_seconds : ℝ) : ℝ :=
  lerp (1 - Real.exp (-speed * delta_seconds)) v target

/-- `impl Damp for Vec2`: componentwise `damp`. -/
def dampVec2 (v target : Vec2) (speed delta_seconds : ℝ) : Vec2 :=
  ⟨damp v.x target.x speed delta_seconds, damp v.y target.y speed delta_seconds⟩

/-- `merge_result` from `src/utility.rs`: `Ok((first?, second?))`.
Rust `Result` is modelled by `Except`. -/
def mergeResult {T E : Type} (first second : Except E T) : Except E (T × T) :=
  match first with
  | .error e => .error e
  | .ok a =>
    match second with
    | .error e => .error e
    | .ok b => .ok (a, b)

/-- The decay factor view of `damp`: weight `e^(-r·dt)` on the current value
and `1 - e^(-r·dt)` on the target. -/
theorem damp_eq (v target speed dt : ℝ) :
    damp v target speed dt =
      Real.exp (-speed * dt) * v + (1 - Real.exp (-speed * dt)) * target := by
  unfold damp lerp; ring

/-! ## `move_player` (`src/game/player.rs`)

The system folds the frame's accumulated mouse deltas (with the y axis
flipped), forms the target velocity `delta * sensitivity / delta_seconds
+ controller velocity`, damps the current `Motion` velocity toward it and
clamps the result to `player.max_speed`.  The `Controller` component of
the (missing) `enemy` module is used here only through its `velocity`
field, so the optional controller input is modelled as `Option Vec2`. -/

def movePlayerNewVelocity (motionVelocity : Vec2) (mouseDeltas : List Vec2)
    (sensitivity dampRate maxSpeed : ℝ) (controller : Option Vec2)
    (timeDelta timeScale : ℝ) : Vec2 :=
  let delta := (mouseDeltas.map (fun v => Vec2.mk v.x (-v.y))).foldl Vec2.add Vec2.zero
  let delta_seconds := timeDelta * timeScale
  let velocity := Vec2.add ((Vec2.smul sensitivity delta).divScalar delta_seconds)
    (controller.elim Vec2.zero id)
  Vec2.clampLengthMax (dampVec2 motionVelocity velocity dampRate delta_seconds) maxSpeed

theorem Vec2.length_clampLengthMax (v : Vec2) (m : ℝ) (hm : 0 ≤ m) :
    Vec2.length (Vec2.clampLengthMax v m) ≤ m := by
  unfold Vec2.clampLengthMax
  split
  · next h =>
    have hpos : 0 < Vec2.lengthSquared v := lt_of_le_of_lt (mul_self_nonneg m) h
    have hs : 0 < Real.sqrt (Vec2.lengthSquared v) := Real.sqrt_pos.mpr hpos
    rw [Vec2.length_smul, Vec2.length_smul, abs_of_nonneg hm,
      abs_of_nonneg (inv_nonneg.mpr hs.le)]
    have hv : Vec2.length v = Real.sqrt (Vec2.lengthSquared v) := rfl
    rw [hv, inv_mul_cancel₀ hs.ne', mul_one]
  · next h =>
    push_neg at h
    have h2 : Vec2.length v ≤ Real.sqrt (m * m) := Real.sqrt_le_sqrt h
    rwa [show m * m = m ^ 2 by ring, Real.sqrt_sq hm] at h2

/-! ## Claim C1 -/

/-- C1, counterexample: the claimed formula
`damp(v, d, r, dt) = (1 - e^(-r·dt))·v + e^(-r·dt)·d` fails at the concrete
input `v = 0, d = 1, r = 1, dt = 1`: the code computes `1 - e⁻¹` there while
the claimed formula gives `e⁻¹`, and `e ≠ 2`. -/
theorem damp_claimed_formula_false :
    damp 0 1 1 1 ≠ (1 - Real.exp (-(1 : ℝ) * 1)) * 0 + Real.exp (-(1 : ℝ) * 1) * 1 := by
  rw [damp_eq]
  have hgt : (2.7182818283 : ℝ) < Real.exp 1 := Real.exp_one_gt_d9
  have hpos : (0 : ℝ) < Real.exp 1 := Real.exp_pos 1
  have hinv : Real.exp (-(1 : ℝ) * 1) = (Real.exp 1)⁻¹ := by
    rw [show (-(1 : ℝ) * 1) = -1 by norm_num, Real.exp_neg]
  rw [hinv]
  intro h
  have h2 : 1 - (Real.exp 1)⁻¹ = (Real.exp 1)⁻¹ := by linarith
  have h3 : Real.exp 1 * (1 - (Real.exp 1)⁻¹) = Real.exp 1 * (Real.exp 1)⁻¹ := by rw [h2]
  rw [mul_sub, mul_one, mul_inv_cancel₀ hpos.ne'] at h3
  linarith

/-- C1, amended: `damp` is exponential smoothing with the weights the other
way around — weight `e^(-r·dt)` on the current value `v` and weight
`(1 - e^(-r·dt))` on the desired target `d`:
`damp(v, d, r, dt) = e^(-r·dt)·v + (1 - e^(-r·dt))·d`, and the `Vec2`
version applies this componentwise. -/
theorem damp_formula (v d r dt : ℝ) (w t : Vec2) :
    damp v d r dt = Real.exp (-(r * dt)) * v + (1 - Real.exp (-(r * dt))) * d ∧
    dampVec2 w t r dt =
      ⟨Real.exp (-(r * dt)) * w.x + (1 - Real.exp (-(r * dt))) * t.x,
       Real.exp (-(r * dt)) * w.y + (1 - Real.exp (-(r * dt))) * t.y⟩ := by
  constructor
  · rw [damp_eq, neg_mul]
  · show Vec2.mk (damp w.x t.x r dt) (damp w.y t.y r dt) = _
    rw [damp_eq, damp_eq, neg_mul]

/-! ## Claim C2 -/

/-- C2: after `move_player` updates the player's `Motion`, for every prior
velocity, accumulated mouse delta list, optional controller velocity and
positive time delta (and time scale), the magnitude of the resulting
velocity does not exceed the configured `Player.max_speed` (the clamp is
applied after damping). -/
theorem move_player_speed_cap (mv : Vec2) (ds : List Vec2)
    (sens dampRate maxSpeed : ℝ) (ctrl : Option Vec2) (dtRaw ts : ℝ)
    (hdt : 0 < dtRaw) (hts : 0 < ts) (hmax : 0 ≤ maxSpeed) :
    Vec2.length (movePlayerNewVelocity mv ds sens dampRate maxSpeed ctrl dtRaw ts) ≤
      maxSpeed := by
  unfold movePlayerNewVelocity
  exact Vec2.length_clampLengthMax _ _ hmax

/-- Witness for C2 at a concrete input. -/
theorem move_player_speed_cap_witness :
    (0 : ℝ) < 1 ∧ (0 : ℝ) ≤ 2000 ∧
    Vec2.length (movePlayerNewVelocity ⟨3, 4⟩ [⟨1, 2⟩] 0.5 20 2000 none 1 1) ≤ 2000 :=
  ⟨by norm_num, by norm_num,
    move_player_speed_cap ⟨3, 4⟩ [⟨1, 2⟩] 0.5 20 2000 none 1 1 (by norm_num) (by norm_num)
      (by norm_num)⟩

/-! ## Claim C3: repeated damping at fixed `dt` -/

/-- The sequence obtained by applying `damp` repeatedly toward a constant
target `T` at a fixed rate `r` and fixed time step `dt`. -/
def dampSeq (x0 T r dt : ℝ) : ℕ → ℝ
  | 0 => x0
  | n + 1 => damp (dampSeq x0 T r dt n) T r dt

theorem dampSeq_sub_target (x0 T r dt : ℝ) (n : ℕ) :
    dampSeq x0 T r dt n - T = Real.exp (-r * dt) ^ n * (x0 - T) := by
  induction n with
  | zero => simp [dampSeq]
  | succ n ih =>
    have hstep : dampSeq x0 T r dt (n + 1) = damp (dampSeq x0 T r dt n) T r dt := rfl
    have hd : damp (dampSeq x0 T r dt n) T r dt - T =
        Real.exp (-r * dt) * (dampSeq x0 T r dt n - T) := by
      rw [damp_eq]; ring
    rw [hstep, hd, ih, pow_succ]; ring

/-- C3: for every initial value `x0`, constant target `T`, rate `r > 0` and
fixed `dt > 0`, the sequence `x_{n+1} = damp(x_n, T, r, dt)` (i) contracts:
`|x_{n+1} - T| ≤ |x_n - T|`; (ii) never overshoots: each iterate lies
between the previous iterate and `T` (so the sign of `x_n - T` never
flips); and (iii) converges to `T`: for every `ε > 0` there is a bound `N`
with `|x_n - T| < ε` for all `n ≥ N`. -/
theorem damp_repeated_convergence (x0 T r dt : ℝ) (hr : 0 < r) (hdt : 0 < dt) :
    (∀ n, |dampSeq x0 T r dt (n + 1) - T| ≤ |dampSeq x0 T r dt n - T|) ∧
    (∀ n, (dampSeq x0 T r dt n ≤ dampSeq x0 T r dt (n + 1) ∧
            dampSeq x0 T r dt (n + 1) ≤ T) ∨
          (T ≤ dampSeq x0 T r dt (n + 1) ∧
            dampSeq x0 T r dt (n + 1) ≤ dampSeq x0 T r dt n)) ∧
    (∀ ε : ℝ, 0 < ε → ∃ N : ℕ, ∀ n, N ≤ n → |dampSeq x0 T r dt n - T| < ε) := by
  set q : ℝ := Real.exp (-r * dt) with hq
  have hq0 : 0 < q := Real.exp_pos _
  have hq1 : q < 1 := by
    rw [hq, Real.exp_lt_one_iff]
    have : 0 < r * dt := mul_pos hr hdt
    linarith
  refine ⟨?_, ?_, ?_⟩
  · intro n
    rw [dampSeq_sub_target, dampSeq_sub_target, abs_mul, abs_mul, abs_pow, abs_pow]
    exact mul_le_mul_of_nonneg_right
      (pow_le_pow_of_le_one (abs_nonneg q) (abs_le.mpr ⟨by linarith, hq1.le⟩)
        (Nat.le_succ n))
      (abs_nonneg _)
  · intro n
    rcases le_total 0 (x0 - T) with hd | hd
    · right
      have h1 : 0 ≤ q ^ (n + 1) * (x0 - T) :=
        mul_nonneg (pow_nonneg hq0.le _) hd
      have h2 : q ^ (n + 1) * (x0 - T) ≤ q ^ n * (x0 - T) :=
        mul_le_mul_of_nonneg_right
          (pow_le_pow_of_le_one hq0.le hq1.le (Nat.le_succ n)) hd
      have e1 := dampSeq_sub_target x0 T r dt (n + 1)
      have e2 := dampSeq_sub_target x0 T r dt n
      rw [← hq] at e1 e2
      constructor <;> linarith
    · left
      have h1 : q ^ (n + 1) * (x0 - T) ≤ 0 :=
        mul_nonpos_of_nonneg_of_nonpos (pow_nonneg hq0.le _) hd
      have h2 : q ^ n * (x0 - T) ≤ q ^ (n + 1) * (x0 - T) :=
        mul_le_mul_of_nonpos_right
          (pow_le_pow_of_le_one hq0.le hq1.le (Nat.le_succ n)) hd
      have e1 := dampSeq_sub_target x0 T r dt (n + 1)
      have e2 := dampSeq_sub_target x0 T r dt n
      rw [← hq] at e1 e2
      constructor <;> linarith
  · intro ε hε
    by_cases hd : x0 = T
    · refine ⟨0, fun n _ => ?_⟩
      rw [dampSeq_sub_target, hd]
      simpa using hε
    · have hdpos : 0 < |x0 - T| := abs_pos.mpr (sub_ne_zero.mpr hd)
      obtain ⟨N, hN⟩ :=
        exists_pow_lt_of_lt_one (div_pos hε hdpos) hq1
      refine ⟨N, fun n hn => ?_⟩
      rw [dampSeq_sub_target, ← hq, abs_mul, abs_pow, abs_of_pos hq0]
      calc q ^ n * |x0 - T| ≤ q ^ N * |x0 - T| :=
            mul_le_mul_of_nonneg_right
              (pow_le_pow_of_le_one hq0.le hq1.le hn) (abs_nonneg _)
        _ < ε := (lt_div_iff hdpos).mp hN

/-- Witness for C3 at `x0 = 0, T = 1, r = 1, dt = 1`. -/
theorem damp_repeated_convergence_witness :
    (0 : ℝ) < 1 ∧
    ((∀ n, |dampSeq 0 1 1 1 (n + 1) - 1| ≤ |dampSeq 0 1 1 1 n - 1|) ∧
     (∀ n, (dampSeq 0 1 1 1 n ≤ dampSeq 0 1 1 1 (n + 1) ∧ dampSeq 0 1 1 1 (n + 1) ≤ 1) ∨
           (1 ≤ dampSeq 0 1 1 1 (n + 1) ∧ dampSeq 0 1 1 1 (n + 1) ≤ dampSeq 0 1 1 1 n)) ∧
     (∀ ε : ℝ, 0 < ε → ∃ N : ℕ, ∀ n, N ≤ n → |dampSeq 0 1 1 1 n - 1| < ε)) :=
  ⟨by norm_num, damp_repeated_convergence 0 1 1 1 (by norm_num) (by norm_num)⟩

/-! ## Claim C4: `player_assistance` candidate selection
(`src/game/player.rs`, lines 57–95)

`Point { time, position, velocity }` comes from the (missing) `ball`
module; only these three fields are used by `player_assistance`.  The
arena height constant is ambiguous between `config.rs` (640) and
`constants.rs` (1000), so it is kept as a parameter. -/

structure Point where
  time : ℝ
  position : Vec2
  velocity : Vec2

/-- The space-time cost from `player_assistance`:
`(point.time - delta_seconds) - (point.position - position).length() / assist_speed`. -/
def assistCost (position : Vec2) (assistSpeed delta_seconds : ℝ) (p : Point) : ℝ :=
  (p.time - delta_seconds) - Vec2.length (Vec2.sub p.position position) / assistSpeed

/-- The three chained `filter`s of `player_assistance`: position in the lower
half, above the bottom margin, still descending. -/
def assistCandidates (arenaHeight : ℝ) (points : List Point) : List Point :=
  ((points.filter fun point => decide (point.position.y < 0)).filter
      fun point => decide (point.position.y > -arenaHeight / 2 + 16)).filter
    fun point => decide (point.velocity.y < 0)

/-- Rust `Iterator::max_by` with the comparator
`cost(a).partial_cmp(&cost(b)).unwrap_or(Equal)`: a `reduce` keeping, of two
elements, the one whose cost is strictly greater (the later one on ties). -/
def rustMaxBy (cost : Point → ℝ) : List Point → Option Point
  | [] => none
  | p :: rest => some (rest.foldl (fun x y => if cost y < cost x then x else y) p)

/-- The control-target choice of `player_assistance` for one ball: `None`
unless the assist trigger fires (vertical ball speed below the threshold
and horizontal offset beyond half the assist range), else the `max_by`
over the filtered trajectory points. -/
def playerAssistTarget (arenaHeight : ℝ) (ballVelocity delta : Vec2)
    (assistSpeedThreshold assistRange : ℝ) (points : List Point)
    (position : Vec2) (assistSpeed delta_seconds : ℝ) : Option Point :=
  if ballVelocity.y < assistSpeedThreshold ∧ |delta.x| > assistRange * 0.5 then
    rustMaxBy (assistCost position assistSpeed delta_seconds)
      (assistCandidates arenaHeight points)
  else none

theorem rustMaxBy_foldl_spec (cost : Point → ℝ) (rest : List Point) (p : Point) :
    (rest.foldl (fun x y => if cost y < cost x then x else y) p ∈ p :: rest) ∧
    cost p ≤ cost (rest.foldl (fun x y => if cost y < cost x then x else y) p) ∧
    ∀ q ∈ rest, cost q ≤ cost (rest.foldl (fun x y => if cost y < cost x then x else y) p) := by
  induction rest generalizing p with
  | nil => exact ⟨List.mem_singleton.mpr rfl, le_refl _, fun q hq => absurd hq (List.not_mem_nil q)⟩
  | cons y ys ih =>
    have hstep : (y :: ys).foldl (fun x y => if cost y < cost x then x else y) p =
        ys.foldl (fun x y => if cost y < cost x then x else y)
          (if cost y < cost p then p else y) := rfl
    obtain ⟨hmem, hle, hall⟩ := ih (if cost y < cost p then p else y)
    have hp : cost p ≤ cost (if cost y < cost p then p else y) := by
      split
      · exact le_refl _
      · next h => exact le_of_not_lt h
    have hy : cost y ≤ cost (if cost y < cost p then p else y) := by
      split
      · next h => exact h.le
      · exact le_refl _
    refine ⟨?_, ?_, ?_⟩
    · rw [hstep]
      rcases List.mem_cons.mp hmem with h | h
      · rw [h]
        split
        · exact List.mem_cons_self _ _
        · exact List.mem_cons_of_mem _ (List.mem_cons_self _ _)
      · exact List.mem_cons_of_mem _ (List.mem_cons_of_mem _ h)
    · rw [hstep]; exact le_trans hp hle
    · intro q hq
      rw [hstep]
      rcases List.mem_cons.mp hq with h | h
      · rw [h]; exact le_trans hy hle
      · exact hall q h

/-- C4: whenever the assist trigger fires and at least one trajectory point
survives the candidate filters, `player_assistance` chooses a control
target, that target is one of the filtered candidate points, and it
maximizes `cost(point) = (point.time − now) − distance(point.position,
playerPosition) / assist_speed` over the filtered candidates. -/
theorem player_assistance_selects_max_cost (arenaHeight : ℝ) (ballVelocity delta : Vec2)
    (assistSpeedThreshold assistRange : ℝ) (points : List Point) (position : Vec2)
    (assistSpeed delta_seconds : ℝ)
    (htrig₁ : ballVelocity.y < assistSpeedThreshold)
    (htrig₂ : |delta.x| > assistRange * 0.5)
    (hne : assistCandidates arenaHeight points ≠ []) :
    ∃ c, playerAssistTarget arenaHeight ballVelocity delta assistSpeedThreshold assistRange
          points position assistSpeed delta_seconds = some c ∧
        c ∈ assistCandidates arenaHeight points ∧
        ∀ p ∈ assistCandidates arenaHeight points,
          assistCost position assistSpeed delta_seconds p ≤
            assistCost position assistSpeed delta_seconds c := by
  unfold playerAssistTarget
  rw [if_pos ⟨htrig₁, htrig₂⟩]
  rcases hcand : assistCandidates arenaHeight points with _ | ⟨p, rest⟩
  · exact absurd hcand hne
  · obtain ⟨hmem, hle, hall⟩ :=
      rustMaxBy_foldl_spec (assistCost position assistSpeed delta_seconds) rest p
    refine ⟨_, rfl, hmem, ?_⟩
    intro q hq
    rcases List.mem_cons.mp hq with h | h
    · rw [h]; exact hle
    · exact hall q h

/-- Witness for C4 at a concrete trajectory of one candidate point. -/
theorem player_assistance_selects_max_cost_witness :
    ((Vec2.mk 0 (-1)).y < (0 : ℝ) ∧ |(Vec2.mk 100 0).x| > 48 * 0.5 ∧
      assistCandidates 1000 [⟨1, ⟨0, -100⟩, ⟨0, -1⟩⟩] ≠ []) ∧
    (∃ c, playerAssistTarget 1000 ⟨0, -1⟩ ⟨100, 0⟩ 0 48 [⟨1, ⟨0, -100⟩, ⟨0, -1⟩⟩]
          ⟨0, 0⟩ 1000 0 = some c ∧
        c ∈ assistCandidates 1000 [⟨1, ⟨0, -100⟩, ⟨0, -1⟩⟩] ∧
        ∀ p ∈ assistCandidates 1000 [⟨1, ⟨0, -100⟩, ⟨0, -1⟩⟩],
          assistCost ⟨0, 0⟩ 1000 0 p ≤ assistCost ⟨0, 0⟩ 1000 0 c) :=
  ⟨⟨by norm_num, by norm_num,
      by norm_num [assistCandidates, List.filter_cons, List.filter_nil]⟩,
    player_assistance_selects_max_cost 1000 ⟨0, -1⟩ ⟨100, 0⟩ 0 48
      [⟨1, ⟨0, -100⟩, ⟨0, -1⟩⟩] ⟨0, 0⟩ 1000 0 (by norm_num) (by norm_num)
      (by norm_num [assistCandidates, List.filter_cons, List.filter_nil])⟩

/-! ## Claim C5: IEEE-754 behaviour of the steering computation

The claim is specifically about what happens when the direction vector is
zero before normalization, which in `f32` arithmetic is a question about
division by zero, infinities and NaN.  `F` is a small IEEE-754-style
carrier: finite values are exact reals (the model's single zero stands for
IEEE `+0.0`), plus the two infinities and NaN.  The operations below follow
the IEEE rules on the constructors, and Rust/glam semantics for `<`,
`max`/`min` (NaN-ignoring) and `clamp`. -/

inductive F where
  | fin (x : ℝ)
  | inf
  | ninf
  | nan
deriving DecidableEq

def Fadd : F → F → F
  | .fin a, .fin b => .fin (a + b)
  | .fin _, .inf => .inf
  | .inf, .fin _ => .inf
  | .fin _, .ninf => .ninf
  | .ninf, .fin _ => .ninf
  | .inf, .inf => .inf
  | .ninf, .ninf => .ninf
  | .inf, .ninf => .nan
  | .ninf, .inf => .nan
  | _, _ => .nan

def Fsub : F → F → F
  | .fin a, .fin b => .fin (a - b)
  | .fin _, .inf => .ninf
  | .inf, .fin _ => .inf
  | .fin _, .ninf => .inf
  | .ninf, .fin _ => .ninf
  | .inf, .ninf => .inf
  | .ninf, .inf => .ninf
  | .inf, .inf => .nan
  | .ninf, .ninf => .nan
  | _, _ => .nan

def Fmul : F → F → F
  | .fin a, .fin b => .fin (a * b)
  | .fin a, .inf => if 0 < a then .inf else if a < 0 then .ninf else .nan
  | .inf, .fin b => if 0 < b then .inf else if b < 0 then .ninf else .nan
  | .fin a, .ninf => if 0 < a then .ninf else if a < 0 then .inf else .nan
  | .ninf, .fin b => if 0 < b then .ninf else if b < 0 then .inf else .nan
  | .inf, .inf => .inf
  | .inf, .ninf => .ninf
  | .ninf, .inf => .ninf
  | .ninf, .ninf => .inf
  | _, _ => .nan

def Fdiv : F → F → F
  | .fin a, .fin b =>
    if b ≠ 0 then .fin (a / b)
    else if 0 < a then .inf else if a < 0 then .ninf else .nan
  | .fin _, .inf => .fin 0
  | .fin _, .ninf => .fin 0
  | .inf, .fin b => if 0 ≤ b then .inf else .ninf
  | .ninf, .fin b => if 0 ≤ b then .ninf else .inf
  | _, _ => .nan

def Fsqrt : F → F
  | .fin a => if 0 ≤ a then .fin (Real.sqrt a) else .nan
  | .inf => .inf
  | .ninf => .nan
  | .nan => .nan

/-- Rust `<` on `f32`: any comparison involving NaN is `false`. -/
def Flt : F → F → Prop
  | .fin a, .fin b => a < b
  | .fin _, .inf => True
  | .ninf, .fin _ => True
  | .ninf, .inf => True
  | _, _ => False

/-- Rust `f32::clamp(min, max)`: `if self < min { min }` then
`if result > max { max }`; NaN input stays NaN. -/
def Fclamp (x lo hi : F) : F :=
  let x₁ := if Flt x lo then lo else x
  if Flt hi x₁ then hi else x₁

structure Vec2F where
  x : F
  y : F
deriving DecidableEq

def Vec2F.sub (a b : Vec2F) : Vec2F := ⟨Fsub a.x b.x, Fsub a.y b.y⟩

/-- glam `Vec2::length` in `f32`: `sqrt(x*x + y*y)`. -/
def Vec2F.length (v : Vec2F) : F := Fsqrt (Fadd (Fmul v.x v.x) (Fmul v.y v.y))

/-- glam `Vec2::length_recip`: `1.0 / length`. -/
def Vec2F.lengthRecip (v : Vec2F) : F := Fdiv (.fin 1) v.length

/-- glam `Vec2::normalize` in release mode: `self * self.length_recip()`
(no zero-length check). -/
def Vec2F.normalize (v : Vec2F) : Vec2F :=
  ⟨Fmul v.x v.lengthRecip, Fmul v.y v.lengthRecip⟩

def Vec2F.smulF (c : F) (v : Vec2F) : Vec2F := ⟨Fmul c v.x, Fmul c v.y⟩

/-- The steering computation of `player_assistance` once a candidate has
been selected (`src/game/player.rs` lines 84–94), in `f32` semantics:
direction to the candidate, space-time speed heuristic clamped to
`[0, assist_speed]`, slow-down inside the stop distance, and finally
`controller.velocity = speed * direction.normalize()`. -/
def assistSteerVelocity (candidatePosition position : Vec2F)
    (candidateTime delta_seconds assistSpeed assistRange : F) : Vec2F :=
  let direction := Vec2F.sub candidatePosition position
  let time := Fsub candidateTime delta_seconds
  let distance := direction.length
  let speed₀ := Fclamp (Fmul (.fin 1.5) (Fadd (Fdiv distance time) (.fin 1))) (.fin 0) assistSpeed
  let stop_distance := Fmul (.fin 1.5) assistRange
  let speed := if Flt distance stop_distance then Fmul speed₀ (Fdiv distance stop_distance)
    else speed₀
  Vec2F.smulF speed direction.normalize

theorem Fmul_nan (a : F) : Fmul a .nan = .nan := by cases a <;> rfl

/-- Evaluation of the steering output when the selected candidate's position
coincides with the player's position: every component is NaN. -/
theorem assistSteerVelocity_same_position (px py : ℝ)
    (ct ds as ar : F) :
    assistSteerVelocity ⟨.fin px, .fin py⟩ ⟨.fin px, .fin py⟩ ct ds as ar =
      ⟨.nan, .nan⟩ := by
  have hdir : Vec2F.sub ⟨F.fin px, F.fin py⟩ ⟨F.fin px, F.fin py⟩ = ⟨F.fin 0, F.fin 0⟩ := by
    simp [Vec2F.sub, Fsub]
  have hnorm : Vec2F.normalize ⟨F.fin 0, F.fin 0⟩ = ⟨F.nan, F.nan⟩ := by
    have hlen : Vec2F.length ⟨F.fin 0, F.fin 0⟩ = F.fin 0 := by
      simp [Vec2F.length, Fmul, Fadd, Fsqrt]
    have hrecip : Vec2F.lengthRecip ⟨F.fin 0, F.fin 0⟩ = F.inf := by
      rw [Vec2F.lengthRecip, hlen]
      simp [Fdiv]
    rw [Vec2F.normalize, hrecip]
    simp [Fmul]
  rw [assistSteerVelocity, hdir, hnorm]
  simp [Vec2F.smulF, Fmul_nan]

/-- C5, counterexample: at a concrete run in which the chosen candidate's
position coincides with the player's position (candidate at the player's
location `(0, 0)`, candidate time 1, now 0, assist speed 1000, assist
range 48), the steering output is not the zero vector — `normalize` of the
zero-length direction produces NaN components and the zero speed factor
does not erase them (`0.0 * NaN = NaN`). -/
theorem assist_zero_direction_not_zero_fallback :
    assistSteerVelocity ⟨.fin 0, .fin 0⟩ ⟨.fin 0, .fin 0⟩ (.fin 1) (.fin 0) (.fin 1000)
      (.fin 48) ≠ ⟨.fin 0, .fin 0⟩ := by
  rw [assistSteerVelocity_same_position]
  intro h
  exact F.noConfusion (congrArg Vec2F.x h)

/-- C5, amended: whenever the selected candidate's position coincides with
the player's position (a zero-length direction vector before
normalization), the steering output is the NaN vector: the speed factor is
scaled to zero but `normalize()` of the zero vector yields NaN components,
and `0.0 * NaN = NaN`, so the fault propagates into `controller.velocity`
instead of a zero-effect fallback. -/
theorem assist_zero_direction_propagates_nan (px py : ℝ)
    (candidateTime delta_seconds assistSpeed assistRange : F) :
    assistSteerVelocity ⟨.fin px, .fin py⟩ ⟨.fin px, .fin py⟩ candidateTime
      delta_seconds assistSpeed assistRange = ⟨.nan, .nan⟩ :=
  assistSteerVelocity_same_position px py candidateTime delta_seconds assistSpeed assistRange

/-! ## Claim C8: `player_hit` (`src/game/mod.rs`, lines 675–718)

The per-collision closure body: `damage = hp.min(speed * mass).min(MAX_DAMAGE)`,
`base.hp -= damage`, `win = base.hp <= 0.0`, and `GameOverEvent::Win` is sent
exactly when `win` holds. -/

def MAX_DAMAGE : ℝ := 2000

structure PlayerHitResult where
  newHp : ℝ
  winSent : Prop

/-- The effect of one processed ball-versus-enemy-base collision in
`player_hit`: `speed` is the ball's velocity magnitude, `mass` the ball's
rigid-body mass. -/
def playerHitStep (hp : ℝ) (velocity : Vec2) (mass : ℝ) : PlayerHitResult :=
  let speed := Vec2.length velocity
  let damage := min (min hp (speed * mass)) MAX_DAMAGE
  { newHp := hp - damage, winSent := hp - damage ≤ 0 }

/-- C8: each processed ball-versus-enemy-base collision decreases the
base's hp by exactly `min(hp, speed·mass, MAX_DAMAGE)`; the decrease never
exceeds `MAX_DAMAGE`; the hp never becomes negative; and
`GameOverEvent::Win` is sent iff the hp reaches zero or below on that
hit. -/
theorem player_hit_invariants (hp mass : ℝ) (velocity : Vec2) :
    hp - (playerHitStep hp velocity mass).newHp =
        min (min hp (Vec2.length velocity * mass)) MAX_DAMAGE ∧
    hp - (playerHitStep hp velocity mass).newHp ≤ MAX_DAMAGE ∧
    0 ≤ (playerHitStep hp velocity mass).newHp ∧
    ((playerHitStep hp velocity mass).winSent ↔
      (playerHitStep hp velocity mass).newHp ≤ 0) := by
  refine ⟨by simp [playerHitStep], ?_, ?_, Iff.rfl⟩
  · simpa [playerHitStep] using min_le_right (min hp (Vec2.length velocity * mass)) MAX_DAMAGE
  · have h : min (min hp (Vec2.length velocity * mass)) MAX_DAMAGE ≤ hp :=
      le_trans (min_le_left _ _) (min_le_left _ _)
    simp only [playerHitStep]
    linarith

/-! ## Claim C9: `player_miss` (`src/game/mod.rs`, lines 723–761)

The per-collision closure body: `lose = ball_count == 0`; on `lose` a
`GameOverEvent::Lose` is sent and the count is untouched, otherwise
`ball_count -= 1`; the `PlayerMissEvent` carries `lose`.  `ball_count` is
an `i32` (`PLAYER_BASE_BALL_COUNT: i32` in `constants.rs`), modelled by ℤ. -/

structure PlayerMissResult where
  newBallCount : ℤ
  loseSent : Prop
  missEventLose : Prop

/-- The effect of one processed ball-versus-player-base collision in
`player_miss`. -/
def playerMissStep (ballCount : ℤ) : PlayerMissResult :=
  let lose := ballCount = 0
  { newBallCount := if ballCount = 0 then ballCount else ballCount - 1,
    loseSent := lose,
    missEventLose := lose }

/-- C9: `player_miss` never drives the ball count below zero: when the
count is zero a `GameOverEvent::Lose` is sent and the count is unchanged,
otherwise the count decreases by exactly one and no `Lose` is sent; the
emitted `PlayerMissEvent.lose` flag holds exactly in the first case. -/
theorem player_miss_ball_count (c : ℤ) (hc : 0 ≤ c) :
    (playerMissStep c).newBallCount = (if c = 0 then c else c - 1) ∧
    ((playerMissStep c).loseSent ↔ c = 0) ∧
    ((playerMissStep c).missEventLose ↔ (playerMissStep c).loseSent) ∧
    0 ≤ (playerMissStep c).newBallCount := by
  refine ⟨rfl, Iff.rfl, Iff.rfl, ?_⟩
  simp only [playerMissStep]
  split
  · exact hc
  · next h => omega

/-- Witness for C9 at `ball_count = 0`. -/
theorem player_miss_ball_count_witness :
    (0 : ℤ) ≤ 0 ∧
    ((playerMissStep 0).newBallCount = (if (0 : ℤ) = 0 then (0 : ℤ) else 0 - 1) ∧
     ((playerMissStep 0).loseSent ↔ (0 : ℤ) = 0) ∧
     ((playerMissStep 0).missEventLose ↔ (playerMissStep 0).loseSent) ∧
     0 ≤ (playerMissStep 0).newBallCount) :=
  ⟨le_refl 0, player_miss_ball_count 0 (le_refl 0)⟩

/-! ## Claim C10: `merge_result` (`src/utility.rs`, lines 32–34) -/

/-- C10: `merge_result(first, second)` is `Ok((a, b))` exactly when
`first = Ok(a)` and `second = Ok(b)`; a first error is returned as-is, and
otherwise a second error is returned as-is. -/
theorem merge_result_spec {T E : Type} (first second : Except E T) (a b : T) (e : E) :
    (mergeResult first second = Except.ok (a, b) ↔
      first = Except.ok a ∧ second = Except.ok b) ∧
    mergeResult (Except.error e) second = Except.error e ∧
    mergeResult (Except.ok a) (Except.error e) = Except.error e := by
  refine ⟨?_, rfl, rfl⟩
  cases first with
  | error e' => simp [mergeResult]
  | ok x =>
    cases second with
    | error e' => simp [mergeResult]
    | ok y => simp [mergeResult]

/-! ## Claim C7: `ball_bounce` debouncing (`src/game/mod.rs`, lines 801–828)

Bevy once-mode `Timer`: `tick` adds the delta to `elapsed`, saturating at
`duration`; `finished` means `duration ≤ elapsed`; `reset` zeroes
`elapsed`.  A `CollisionEvent` is seen by `ball_bounce` only through
whether each of its two entities matches the ball query. -/

structure BTimer where
  duration : ℝ
  elapsed : ℝ

def BTimer.tick (t : BTimer) (delta : ℝ) : BTimer :=
  ⟨t.duration, min (t.elapsed + delta) t.duration⟩

def BTimer.finished (t : BTimer) : Prop := t.duration ≤ t.elapsed

def BTimer.reset (t : BTimer) : BTimer := ⟨t.duration, 0⟩

structure CollisionEv where
  fstIsBall : Bool
  sndIsBall : Bool

/-- The closure of `ball_bounce` succeeds (and a `BounceEvent` is sent) for
one of the two entity orderings iff either entity is a ball. -/
def CollisionEv.emits (e : CollisionEv) : Bool := e.fstIsBall || e.sndIsBall

/-- The body of the event loop of `ball_bounce`: a ball-involving event
sends a `BounceEvent` (counted) and resets the timer. -/
def bounceStep (acc : BTimer × ℕ) (e : CollisionEv) : BTimer × ℕ :=
  if e.emits then (acc.1.reset, acc.2 + 1) else acc

/-- One run of the `ball_bounce` system: tick the debounce timer once; if it
has finished, iterate over this run's collision events, sending a
`BounceEvent` (and resetting the timer) for each event involving a ball.
Returns the final timer and the number of `BounceEvent`s sent. -/
def ballBounceRun (t : BTimer) (delta : ℝ) (events : List CollisionEv) : BTimer × ℕ :=
  if (t.tick delta).finished then events.foldl bounceStep (t.tick delta, 0)
  else (t.tick delta, 0)

/-- Total tick time of a list of runs (delta, events). -/
def sumDeltas (runs : List (ℝ × List CollisionEv)) : ℝ := (runs.map Prod.fst).sum

/-- The timer after a sequence of `ball_bounce` runs. -/
def finalTimer (t : BTimer) (runs : List (ℝ × List CollisionEv)) : BTimer :=
  runs.foldl (fun s r => (ballBounceRun s r.1 r.2).1) t

/-- No run of the sequence emits a `BounceEvent`. -/
def noEmissions (t : BTimer) : List (ℝ × List CollisionEv) → Prop
  | [] => True
  | r :: rest =>
    (ballBounceRun t r.1 r.2).2 = 0 ∧ noEmissions (ballBounceRun t r.1 r.2).1 rest

theorem ballBounce_foldl_spec (events : List CollisionEv) (acc : BTimer × ℕ) :
    (events.foldl bounceStep acc).1.duration = acc.1.duration ∧
    acc.2 ≤ (events.foldl bounceStep acc).2 ∧
    (acc.2 < (events.foldl bounceStep acc).2 → (events.foldl bounceStep acc).1.elapsed = 0) ∧
    ((events.foldl bounceStep acc).2 = acc.2 → (events.foldl bounceStep acc).1 = acc.1) := by
  induction events generalizing acc with
  | nil => exact ⟨rfl, le_refl _, fun h => absurd h (lt_irrefl _), fun _ => rfl⟩
  | cons e rest ih =>
    by_cases he : e.emits
    · have hstep : (e :: rest).foldl bounceStep acc =
          rest.foldl bounceStep (acc.1.reset, acc.2 + 1) := by
        rw [List.foldl_cons]
        unfold bounceStep
        rw [if_pos he]
      obtain ⟨hdur, hmono, hemit, hkeep⟩ := ih (acc.1.reset, acc.2 + 1)
      rw [hstep]
      refine ⟨hdur, by omega, fun _ => ?_, fun h => absurd h (by omega)⟩
      rcases Nat.lt_or_ge (acc.2 + 1) ((rest.foldl bounceStep (acc.1.reset, acc.2 + 1)).2)
          with h | h
      · exact hemit h
      · rw [hkeep (le_antisymm (by omega) hmono)]
        rfl
    · have hstep : (e :: rest).foldl bounceStep acc = rest.foldl bounceStep acc := by
        rw [List.foldl_cons]
        unfold bounceStep
        rw [if_neg he]
      rw [hstep]
      exact ih acc

theorem ballBounceRun_duration (t : BTimer) (δ : ℝ) (evs : List CollisionEv) :
    (ballBounceRun t δ evs).1.duration = t.duration := by
  unfold ballBounceRun
  split
  · exact (ballBounce_foldl_spec evs (t.tick δ, 0)).1
  · rfl

theorem ballBounceRun_emit_elapsed (t : BTimer) (δ : ℝ) (evs : List CollisionEv)
    (h : 0 < (ballBounceRun t δ evs).2) : (ballBounceRun t δ evs).1.elapsed = 0 := by
  unfold ballBounceRun at h ⊢
  split at h
  · next hf =>
    rw [if_pos hf]
    exact (ballBounce_foldl_spec evs (t.tick δ, 0)).2.2.1 h
  · exact absurd h (lt_irrefl 0)

theorem ballBounceRun_no_emit (t : BTimer) (δ : ℝ) (evs : List CollisionEv)
    (h : (ballBounceRun t δ evs).2 = 0) : (ballBounceRun t δ evs).1 = t.tick δ := by
  unfold ballBounceRun at h ⊢
  split at h
  · next hf =>
    rw [if_pos hf]
    exact (ballBounce_foldl_spec evs (t.tick δ, 0)).2.2.2 h
  · next hf =>
    rw [if_neg hf]

theorem ballBounceRun_emit_finished (t : BTimer) (δ : ℝ) (evs : List CollisionEv)
    (h : 0 < (ballBounceRun t δ evs).2) : t.duration ≤ t.elapsed + δ := by
  unfold ballBounceRun at h
  by_cases hf : (t.tick δ).finished
  · have h2 := hf
    unfold BTimer.finished BTimer.tick at h2
    exact (le_min_iff.mp h2).1
  · rw [if_neg hf] at h
    exact absurd h (lt_irrefl 0)

theorem finalTimer_noEmissions (runs : List (ℝ × List CollisionEv)) (t : BTimer)
    (h : noEmissions t runs) :
    (finalTimer t runs).duration = t.duration ∧
    (finalTimer t runs).elapsed ≤ t.elapsed + sumDeltas runs := by
  induction runs generalizing t with
  | nil => exact ⟨rfl, by simp [sumDeltas, finalTimer]⟩
  | cons r rest ih =>
    obtain ⟨h0, hrest⟩ := h
    have hstep : finalTimer t (r :: rest) = finalTimer (ballBounceRun t r.1 r.2).1 rest := rfl
    have hrun : (ballBounceRun t r.1 r.2).1 = t.tick r.1 := ballBounceRun_no_emit t r.1 r.2 h0
    obtain ⟨ihdur, ihel⟩ := ih (ballBounceRun t r.1 r.2).1 hrest
    rw [hstep]
    constructor
    · rw [ihdur, hrun]; rfl
    · have htick : (t.tick r.1).elapsed ≤ t.elapsed + r.1 := min_le_left _ _
      have hsum : sumDeltas (r :: rest) = r.1 + sumDeltas rest := by
        simp [sumDeltas]
      rw [hsum]
      calc (finalTimer (ballBounceRun t r.1 r.2).1 rest).elapsed
          ≤ (ballBounceRun t r.1 r.2).1.elapsed + sumDeltas rest := ihel
        _ ≤ t.elapsed + r.1 + sumDeltas rest := by rw [hrun]; linarith
        _ = t.elapsed + (r.1 + sumDeltas rest) := by ring

/-- C7, counterexample: with the debounce timer finished and two
ball-involving collision events arriving in the same frame, a single run of
`ball_bounce` emits two `BounceEvent`s — zero seconds of game time apart,
which is less than the 0.1 s debounce duration (the `finished` check is
made once per run, before the event loop, so the per-emission reset does
not gate later events of the same run). -/
theorem ball_bounce_debounce_false :
    (ballBounceRun ⟨0.1, 0.1⟩ 0 [⟨true, false⟩, ⟨true, false⟩]).2 = 2 := by
  have hf : (BTimer.tick ⟨0.1, 0.1⟩ 0).finished := by
    unfold BTimer.tick BTimer.finished
    norm_num
  unfold ballBounceRun
  rw [if_pos hf]
  rfl

/-- C7, amended: the `finished` check gates a whole run, not each event:
`ball_bounce` emits only in runs whose ticked timer has finished, and
resets the timer on every emission, so two *runs* that both emit are
separated by at least the debounce duration of accumulated tick time; but
within one run every ball-involving collision event emits, so multiple
`BounceEvent`s can be sent at the same instant.  Formally: if a run emits,
the next emitting run happens only after tick deltas summing to at least
the timer's duration. -/
theorem ball_bounce_inter_run_separation (t₀ : BTimer) (δ₀ δj : ℝ)
    (evs₀ evsj : List CollisionEv) (runs : List (ℝ × List CollisionEv))
    (h₀ : 0 < (ballBounceRun t₀ δ₀ evs₀).2)
    (hmid : noEmissions (ballBounceRun t₀ δ₀ evs₀).1 runs)
    (hj : 0 < (ballBounceRun (finalTimer (ballBounceRun t₀ δ₀ evs₀).1 runs) δj evsj).2) :
    t₀.duration ≤ sumDeltas runs + δj := by
  set t₁ := (ballBounceRun t₀ δ₀ evs₀).1 with ht₁
  have he₁ : t₁.elapsed = 0 := ballBounceRun_emit_elapsed t₀ δ₀ evs₀ h₀
  have hd₁ : t₁.duration = t₀.duration := ballBounceRun_duration t₀ δ₀ evs₀
  obtain ⟨hdur, hel⟩ := finalTimer_noEmissions runs t₁ hmid
  have hfin := ballBounceRun_emit_finished (finalTimer t₁ runs) δj evsj hj
  rw [hdur, hd₁] at hfin
  rw [he₁] at hel
  linarith

/-- Witness for C7's amended theorem: a run that emits, no intermediate
runs, and a next emitting run after a tick of exactly the debounce
duration. -/
theorem ball_bounce_inter_run_separation_witness :
    (0 < (ballBounceRun ⟨0.1, 0.1⟩ 0 [⟨true, false⟩]).2 ∧
      noEmissions (ballBounceRun ⟨0.1, 0.1⟩ 0 [⟨true, false⟩]).1 [] ∧
      0 < (ballBounceRun
        (finalTimer (ballBounceRun ⟨0.1, 0.1⟩ 0 [⟨true, false⟩]).1 []) 0.1 [⟨true, false⟩]).2) ∧
    (BTimer.mk 0.1 0.1).duration ≤ sumDeltas [] + 0.1 := by
  have hf : (BTimer.tick ⟨0.1, 0.1⟩ 0).finished := by
    unfold BTimer.tick BTimer.finished; norm_num
  have h₀ : 0 < (ballBounceRun ⟨0.1, 0.1⟩ 0 [⟨true, false⟩]).2 := by
    unfold ballBounceRun
    rw [if_pos hf]
    simp [List.foldl, bounceStep, CollisionEv.emits]
  have hrun : (ballBounceRun ⟨0.1, 0.1⟩ 0 [⟨true, false⟩]).1 = ⟨0.1, 0⟩ := by
    unfold ballBounceRun
    rw [if_pos hf]
    rfl
  have hmid : noEmissions (ballBounceRun ⟨0.1, 0.1⟩ 0 [⟨true, false⟩]).1 [] := trivial
  have hf₂ : (BTimer.tick ⟨0.1, 0⟩ 0.1).finished := by
    unfold BTimer.tick BTimer.finished; norm_num
  have hj : 0 < (ballBounceRun
      (finalTimer (ballBounceRun ⟨0.1, 0.1⟩ 0 [⟨true, false⟩]).1 []) 0.1 [⟨true, false⟩]).2 := by
    have hft : finalTimer (ballBounceRun ⟨0.1, 0.1⟩ 0 [⟨true, false⟩]).1 [] =
        (⟨0.1, 0⟩ : BTimer) := by rw [finalTimer, List.foldl_nil, hrun]
    rw [hft]
    unfold ballBounceRun
    rw [if_pos hf₂]
    simp [List.foldl, bounceStep, CollisionEv.emits]
  exact ⟨⟨h₀, hmid, hj⟩,
    ball_bounce_inter_run_separation ⟨0.1, 0.1⟩ 0 0.1 [⟨true, false⟩] [⟨true, false⟩] []
      h₀ hmid hj⟩

/-! ## Claim C6: `reset_ball` (`src/game/mod.rs`, lines 562–601)

The world is a list of entities with a stable id, `Ball` marker presence,
`Motion` presence and a `Transform` translation.  `reset_ball` mutates
translations immediately but queues `Motion` removals through `Commands`,
which Bevy applies after the system; the model collects the removal ids
during the run and applies them at the end.  Arena constants follow
`constants.rs` (the module imported by `src/game/mod.rs`). -/

def ARENA_WIDTH : ℝ := 750
def ARENA_HEIGHT : ℝ := 1000

structure Ent where
  id : ℕ
  isBall : Bool
  hasMotion : Bool
  translation : Vec3

/-- The out-of-range test of `reset_ball`. -/
def outOfBounds (p : Vec3) : Prop :=
  p.x < -ARENA_WIDTH / 2 ∨ p.x > ARENA_WIDTH / 2 ∨
    p.y < -ARENA_HEIGHT / 2 ∨ p.y > ARENA_HEIGHT / 2

/-- `Vec3::new(0.0, 0.0, -1.0)`, the parked-ball translation. -/
def resetTranslation : Vec3 := ⟨0, 0, -1⟩

structure PlayerHitEv where
  ball : ℕ
  win : Bool

structure PlayerMissEv where
  ball : ℕ

structure ResetState where
  world : List Ent
  removals : List ℕ
  timeScale : ℝ

/-- `query.get_mut(ball)` in `reset_ball` succeeds iff the entity with that
id is a ball that currently has `Motion`. -/
def matchesBall (i : ℕ) (e : Ent) : Bool := e.id == i && e.isBall && e.hasMotion

/-- The event closure of `reset_ball`: if the named ball is in the
(`With<Ball>, With<Motion>`) query, park its translation, queue the
`Motion` removal and reset the time scale. -/
def resetClosure (s : ResetState) (ball : ℕ) : ResetState :=
  if s.world.any (matchesBall ball) then
    { world := s.world.map fun e =>
        if matchesBall ball e then { e with translation := resetTranslation } else e,
      removals := ball :: s.removals,
      timeScale := 1 }
  else s

/-- An entity caught by the out-of-range scan of `reset_ball`. -/
def scanHit (e : Ent) : Prop :=
  e.isBall = true ∧ e.hasMotion = true ∧ outOfBounds e.translation

/-- Per-entity translation update of the out-of-range loop. -/
def scanUpd (e : Ent) : Ent :=
  if scanHit e then { e with translation := resetTranslation } else e

/-- The out-of-range loop of `reset_ball`: every queried ball whose current
translation is out of the arena is parked and queued for `Motion`
removal. -/
def resetOutOfRange (s : ResetState) : ResetState :=
  { world := s.world.map scanUpd,
    removals := (s.world.filterMap fun e => if scanHit e then some e.id else none) ++
      s.removals,
    timeScale := s.timeScale }

/-- Per-entity effect of an applied `remove::<Motion>()` command set. -/
def removalUpd (removals : List ℕ) (e : Ent) : Ent :=
  if e.id ∈ removals then { e with hasMotion := false } else e

/-- Application of the queued `remove::<Motion>()` commands. -/
def applyRemovals (w : List Ent) (removals : List ℕ) : List Ent :=
  w.map (removalUpd removals)

/-- The two event loops of `reset_ball`: process win-hits, then misses. -/
def resetAfterEvents (w : List Ent) (ts : ℝ) (hits : List PlayerHitEv)
    (misses : List PlayerMissEv) : ResetState :=
  misses.foldl (fun s ev => resetClosure s ev.ball)
    (hits.foldl (fun s ev => if ev.win then resetClosure s ev.ball else s) ⟨w, [], ts⟩)

/-- The whole `reset_ball` system: process win-hits, then misses, then the
out-of-range scan, then apply the queued `Motion` removals. -/
def resetBallRun (w : List Ent) (ts : ℝ) (hits : List PlayerHitEv)
    (misses : List PlayerMissEv) : List Ent × ℝ :=
  (applyRemovals (resetOutOfRange (resetAfterEvents w ts hits misses)).world
      (resetOutOfRange (resetAfterEvents w ts hits misses)).removals,
    (resetOutOfRange (resetAfterEvents w ts hits misses)).timeScale)

/-- Single-entity effect of the event closure for id `i`. -/
def updOne (i : ℕ) (e : Ent) : Ent :=
  if matchesBall i e then { e with translation := resetTranslation } else e

/-- Single-entity effect of processing a list of event ids. -/
def updEvents (ids : List ℕ) (e : Ent) : Ent :=
  if e.isBall = true ∧ e.hasMotion = true ∧ e.id ∈ ids then
    { e with translation := resetTranslation }
  else e

theorem matchesBall_updOne (i j : ℕ) (e : Ent) :
    matchesBall i (updOne j e) = matchesBall i e := by
  unfold updOne
  split <;> rfl

theorem resetClosure_get? (s : ResetState) (i : ℕ) (k : ℕ) (e : Ent)
    (hk : s.world.get? k = some e) :
    (resetClosure s i).world.get? k = some (updOne i e) := by
  unfold resetClosure
  split
  · next _ =>
    show (s.world.map _).get? k = _
    rw [List.get?_map, hk]
    rfl
  · next h =>
    have hmem : e ∈ s.world := List.get?_mem hk
    have hno : matchesBall i e = false := by
      by_contra hb
      exact h (List.any_eq_true.mpr ⟨e, hmem, by
        cases hx : matchesBall i e
        · exact absurd hx hb
        · rfl⟩)
    rw [hk]
    unfold updOne
    rw [hno]
    rfl

theorem updEvents_updOne (i : ℕ) (ids : List ℕ) (e : Ent) :
    updEvents ids (updOne i e) = updEvents (i :: ids) e := by
  unfold updOne
  by_cases hm : matchesBall i e = true
  · rw [if_pos hm]
    unfold matchesBall at hm
    simp only [Bool.and_eq_true, beq_iff_eq] at hm
    obtain ⟨⟨hid, hb⟩, hmo⟩ := hm
    unfold updEvents
    have hR : e.isBall = true ∧ e.hasMotion = true ∧ e.id ∈ i :: ids :=
      ⟨hb, hmo, by rw [hid]; exact List.mem_cons_self i ids⟩
    rw [if_pos hR]
    split <;> rfl
  · rw [if_neg hm]
    unfold matchesBall at hm
    simp only [Bool.and_eq_true, beq_iff_eq, not_and] at hm
    unfold updEvents
    by_cases hb : e.isBall = true
    · by_cases hmo : e.hasMotion = true
      · have hid : ¬ e.id = i := fun h => hm ⟨h, hb⟩ hmo
        by_cases hin : e.id ∈ ids
        · rw [if_pos ⟨hb, hmo, hin⟩, if_pos ⟨hb, hmo, List.mem_cons_of_mem i hin⟩]
        · rw [if_neg (fun hc => hin hc.2.2),
            if_neg (fun hc => hin (by
              rcases List.mem_cons.mp hc.2.2 with h | h
              · exact absurd h hid
              · exact h))]
      · rw [if_neg (fun hc => hmo hc.2.1), if_neg (fun hc => hmo hc.2.1)]
    · rw [if_neg (fun hc => hb hc.1), if_neg (fun hc => hb hc.1)]

theorem foldl_resetClosure_get? (ids : List ℕ) (s : ResetState) (k : ℕ) (e : Ent)
    (hk : s.world.get? k = some e) :
    (ids.foldl resetClosure s).world.get? k = some (updEvents ids e) := by
  induction ids generalizing s e with
  | nil =>
    rw [List.foldl_nil, hk]
    unfold updEvents
    rw [if_neg (fun hc => List.not_mem_nil e.id hc.2.2)]
  | cons i rest ih =>
    rw [List.foldl_cons]
    rw [ih (resetClosure s i) (updOne i e) (resetClosure_get? s i k e hk),
      updEvents_updOne]

theorem foldl_resetClosure_removals_mono (ids : List ℕ) (s : ResetState) (i : ℕ)
    (h : i ∈ s.removals) : i ∈ (ids.foldl resetClosure s).removals := by
  induction ids generalizing s with
  | nil => exact h
  | cons j rest ih =>
    rw [List.foldl_cons]
    refine ih (resetClosure s j) ?_
    unfold resetClosure
    split
    · exact List.mem_cons_of_mem j h
    · exact h

theorem resetClosure_exists_matching (s : ResetState) (j i : ℕ)
    (h : ∃ e ∈ s.world, matchesBall i e = true) :
    ∃ e ∈ (resetClosure s j).world, matchesBall i e = true := by
  obtain ⟨e, hmem, hmatch⟩ := h
  unfold resetClosure
  split
  · refine ⟨updOne j e, ?_, by rw [matchesBall_updOne]; exact hmatch⟩
    show _ ∈ s.world.map _
    rw [List.mem_map]
    exact ⟨e, hmem, rfl⟩
  · exact ⟨e, hmem, hmatch⟩

theorem foldl_resetClosure_removals (ids : List ℕ) (s : ResetState) (i : ℕ)
    (hi : i ∈ ids) (hw : ∃ e ∈ s.world, matchesBall i e = true) :
    i ∈ (ids.foldl resetClosure s).removals := by
  induction ids generalizing s with
  | nil => exact absurd hi (List.not_mem_nil i)
  | cons j rest ih =>
    rw [List.foldl_cons]
    rcases List.mem_cons.mp hi with hij | hrest
    · subst hij
      refine foldl_resetClosure_removals_mono rest (resetClosure s i) i ?_
      unfold resetClosure
      obtain ⟨e, hmem, hmatch⟩ := hw
      rw [if_pos (List.any_eq_true.mpr ⟨e, hmem, hmatch⟩)]
      exact List.mem_cons_self i _
    · exact ih (resetClosure s j) hrest (resetClosure_exists_matching s j i hw)

theorem not_outOfBounds_reset : ¬ outOfBounds resetTranslation := by
  unfold outOfBounds resetTranslation ARENA_WIDTH ARENA_HEIGHT
  norm_num

/-- C6: after `reset_ball` runs, every ball entity that had `Motion` and
whose position was outside the arena bounds ends with its `Motion`
removed and its position at the origin; the same happens for a ball named
in any `PlayerMissEvent`, and for a ball named in a `PlayerHitEvent`
whose `win` flag is set. -/
theorem reset_ball_spec (w : List Ent) (ts : ℝ) (hits : List PlayerHitEv)
    (misses : List PlayerMissEv) (k : ℕ) (e e' : Ent)
    (hk : w.get? k = some e)
    (hball : e.isBall = true) (hmotion : e.hasMotion = true)
    (hk' : (resetBallRun w ts hits misses).1.get? k = some e') :
    (outOfBounds e.translation →
      e'.hasMotion = false ∧ e'.translation.x = 0 ∧ e'.translation.y = 0) ∧
    ((∃ m ∈ misses, m.ball = e.id) →
      e'.hasMotion = false ∧ e'.translation.x = 0 ∧ e'.translation.y = 0) ∧
    ((∃ h ∈ hits, h.win = true ∧ h.ball = e.id) →
      e'.hasMotion = false ∧ e'.translation.x = 0 ∧ e'.translation.y = 0) := by
  classical
  -- restate the two event folds as one fold over the processed ball ids
  have hfoldHits : ∀ (l : List PlayerHitEv) (s : ResetState),
      l.foldl (fun s ev => if ev.win then resetClosure s ev.ball else s) s =
        ((l.filter fun h => h.win).map (fun h => h.ball)).foldl resetClosure s := by
    intro l
    induction l with
    | nil => intro s; rfl
    | cons h rest ih =>
      intro s
      rw [List.foldl_cons]
      by_cases hw : h.win = true
      · rw [if_pos hw, List.filter_cons, if_pos hw, List.map_cons, List.foldl_cons]
        exact ih (resetClosure s h.ball)
      · rw [if_neg hw, List.filter_cons, if_neg (by simpa using hw)]
        exact ih s
  have hfoldMiss : ∀ (l : List PlayerMissEv) (s : ResetState),
      l.foldl (fun s ev => resetClosure s ev.ball) s =
        (l.map (fun m => m.ball)).foldl resetClosure s := by
    intro l
    induction l with
    | nil => intro s; rfl
    | cons m rest ih =>
      intro s
      rw [List.foldl_cons, List.map_cons, List.foldl_cons]
      exact ih (resetClosure s m.ball)
  set ids : List ℕ :=
    (hits.filter fun h => h.win).map (fun h => h.ball) ++ misses.map (fun m => m.ball)
    with hids
  have hevents : resetAfterEvents w ts hits misses =
      ids.foldl resetClosure ⟨w, [], ts⟩ := by
    rw [resetAfterEvents, hfoldHits, hfoldMiss, hids, List.foldl_append]
  -- the entity at index k after the event folds
  have hk₂ : (resetAfterEvents w ts hits misses).world.get? k = some (updEvents ids e) := by
    rw [hevents]
    exact foldl_resetClosure_get? ids ⟨w, [], ts⟩ k e hk
  -- the entity at index k after the scan
  have hk₃ : (resetOutOfRange (resetAfterEvents w ts hits misses)).world.get? k =
      some (scanUpd (updEvents ids e)) := by
    show ((resetAfterEvents w ts hits misses).world.map scanUpd).get? k = _
    rw [List.get?_map, hk₂]
    rfl
  -- the final entity at index k
  have hk₄ : (resetBallRun w ts hits misses).1.get? k =
      some (removalUpd (resetOutOfRange (resetAfterEvents w ts hits misses)).removals
        (scanUpd (updEvents ids e))) := by
    show ((resetOutOfRange (resetAfterEvents w ts hits misses)).world.map _).get? k = _
    rw [List.get?_map, hk₃]
    rfl
  rw [hk'] at hk₄
  have he' : e' = removalUpd (resetOutOfRange (resetAfterEvents w ts hits misses)).removals
      (scanUpd (updEvents ids e)) := Option.some.inj hk₄
  -- the common conclusion once the id is queued and the translation parked
  have hdone : (scanUpd (updEvents ids e)).id ∈
        (resetOutOfRange (resetAfterEvents w ts hits misses)).removals →
      (scanUpd (updEvents ids e)).translation = resetTranslation →
      e'.hasMotion = false ∧ e'.translation.x = 0 ∧ e'.translation.y = 0 := by
    intro hrem htr
    rw [he', removalUpd, if_pos hrem]
    exact ⟨rfl, by show (scanUpd (updEvents ids e)).translation.x = 0; rw [htr]; rfl,
      by show (scanUpd (updEvents ids e)).translation.y = 0; rw [htr]; rfl⟩
  -- a queued event id leads to the conclusion
  have hevent : e.id ∈ ids →
      e'.hasMotion = false ∧ e'.translation.x = 0 ∧ e'.translation.y = 0 := by
    intro hin
    have hupd : updEvents ids e = { e with translation := resetTranslation } := by
      unfold updEvents
      rw [if_pos ⟨hball, hmotion, hin⟩]
    have hscan : ¬ scanHit (updEvents ids e) := by
      rw [hupd]
      intro hc
      exact not_outOfBounds_reset hc.2.2
    have hsu : scanUpd (updEvents ids e) = { e with translation := resetTranslation } := by
      rw [scanUpd, if_neg hscan, hupd]
    have hrem₂ : e.id ∈ (resetAfterEvents w ts hits misses).removals := by
      rw [hevents]
      refine foldl_resetClosure_removals ids ⟨w, [], ts⟩ e.id hin ?_
      refine ⟨e, List.get?_mem hk, ?_⟩
      unfold matchesBall
      rw [hball, hmotion]
      simp
    have hrem₃ : (scanUpd (updEvents ids e)).id ∈
        (resetOutOfRange (resetAfterEvents w ts hits misses)).removals := by
      rw [hsu]
      exact List.mem_append_right _ hrem₂
    exact hdone hrem₃ (by rw [hsu])
  refine ⟨?_, ?_, ?_⟩
  · -- out of bounds
    intro hoob
    by_cases hin : e.id ∈ ids
    · exact hevent hin
    · have hupd : updEvents ids e = e := by
        unfold updEvents
        rw [if_neg (fun hc => hin hc.2.2)]
      have hscan : scanHit (updEvents ids e) := by
        rw [hupd]
        exact ⟨hball, hmotion, hoob⟩
      have hsu : scanUpd (updEvents ids e) = { e with translation := resetTranslation } := by
        rw [scanUpd, if_pos hscan, hupd]
      have hmem₂ : e ∈ (resetAfterEvents w ts hits misses).world :=
        List.get?_mem (by rw [hk₂, hupd])
      have hrem₃ : (scanUpd (updEvents ids e)).id ∈
          (resetOutOfRange (resetAfterEvents w ts hits misses)).removals := by
        rw [hsu]
        refine List.mem_append_left _ ?_
        rw [List.mem_filterMap]
        refine ⟨e, hmem₂, ?_⟩
        rw [if_pos (by rw [hupd] at hscan; exact hscan)]
      exact hdone hrem₃ (by rw [hsu])
  · -- named in a miss event
    intro hm
    obtain ⟨m, hmem, hid⟩ := hm
    refine hevent (List.mem_append_right _ ?_)
    rw [List.mem_map]
    exact ⟨m, hmem, hid⟩
  · -- named in a winning hit event
    intro hh
    obtain ⟨h, hmem, hwin, hid⟩ := hh
    refine hevent (List.mem_append_left _ ?_)
    rw [List.mem_map]
    exact ⟨h, List.mem_filter.mpr ⟨hmem, by rw [hwin]⟩, hid⟩

/-- Witness for C6: a one-ball world with the ball out of bounds on the
right. -/
theorem reset_ball_spec_witness :
    ([⟨7, true, true, ⟨400, 0, 0⟩⟩] : List Ent).get? 0 =
        some ⟨7, true, true, ⟨400, 0, 0⟩⟩ ∧
    (Ent.mk 7 true true ⟨400, 0, 0⟩).isBall = true ∧
    (Ent.mk 7 true true ⟨400, 0, 0⟩).hasMotion = true ∧
    outOfBounds (Vec3.mk 400 0 0) ∧
    ∀ e', (resetBallRun [⟨7, true, true, ⟨400, 0, 0⟩⟩] 1 [] []).1.get? 0 = some e' →
      e'.hasMotion = false ∧ e'.translation.x = 0 ∧ e'.translation.y = 0 := by
  refine ⟨rfl, rfl, rfl, ?_, ?_⟩
  · unfold outOfBounds ARENA_WIDTH
    norm_num
  · intro e' hk'
    exact (reset_ball_spec [⟨7, true, true, ⟨400, 0, 0⟩⟩] 1 [] [] 0
        ⟨7, true, true, ⟨400, 0, 0⟩⟩ e' rfl rfl rfl hk').1
      (by unfold outOfBounds ARENA_WIDTH; norm_num)

end Bouncetyper
